import Mathlib

/-!
Verification of the keyword-overlap matching engine of this repository.

The matcher lives in `generate_career_recommendations` of `src/app.py`
(lines 109-148; `src/ra_gem_2.py` lines 110-149 are identical): it
tokenizes the two texts with `re.findall(r'\b\w+\b', text.lower())`,
filters the `STOP_WORDS` set, collects the job tokens that occur among the
resume tokens, computes a match percentage over the deduplicated token
sets (guarded against an empty job-token set), prints that percentage and
returns the matched-keyword list.

An earlier variant, `src/resume_analyzer_2.py` (lines 5-41), cleans the
texts with `replace(',','').replace('.','').lower().split()`, applies no
stop-word filtering, and divides by `len(set(job_words))` with no zero
guard, so it raises `ZeroDivisionError` when the job text has no words.
That variant is embedded as an `Option`-returning function (`none` models
the uncaught exception).

Python strings are modelled over their character lists with ASCII
case-folding (`Char.toLower`), which covers the word-character class
`[A-Za-z0-9_]` the specification assigns to `\w`.  Python floats are
modelled by rationals: every division the matcher performs is exact on
the inputs considered here.
-/

/-- The stop-word set `STOP_WORDS` of `src/app.py` lines 18-21. -/
def STOP_WORDS : List String :=
  ["a", "an", "at", "for", "from", "the", "and", "or", "but", "if", "to",
   "of", "in", "on", "with", "is", "it", "this", "that", "be", "as", "by",
   "are", "was", "must", "can", "able"]

/-- Word characters of the regex class `\w`, in its ASCII reading
`[A-Za-z0-9_]`. -/
def isWordChar (c : Char) : Bool :=
  c.isAlphanum || c = '_'

/-- Scanner returning the maximal runs of characters satisfying `p`, in
order of appearance; `acc` is the run currently being read.  With
`p = isWordChar` this transcribes `re.findall(r'\b\w+\b', text)`, and with
`p` = "not whitespace" it transcribes `str.split()`. -/
def runsOf (p : Char → Bool) : List Char → List Char → List (List Char)
  | [], acc => if acc.isEmpty then [] else [acc]
  | c :: cs, acc =>
    if p c then runsOf p cs (acc ++ [c])
    else if acc.isEmpty then runsOf p cs []
    else acc :: runsOf p cs []

/-- Tokenizer of `src/app.py` lines 114-115:
`re.findall(r'\b\w+\b', text.lower())`. -/
def tokenize (text : String) : List String :=
  (runsOf isWordChar (text.data.map Char.toLower) []).map String.mk

/-- Stop-word filtering of `src/app.py` lines 118-119:
`[w for w in words if w not in STOP_WORDS]`. -/
def filter_stopwords (tokens stop : List String) : List String :=
  tokens.filter (fun w => decide (w ∉ stop))

/-- The matching loop of `src/app.py` lines 126-129: scan the job tokens in
order and append those that occur anywhere among the resume tokens. -/
def matchTokens (resume_tokens job_tokens : List String) : List String :=
  job_tokens.foldl (fun acc w => if w ∈ resume_tokens then acc ++ [w] else acc) []

/-- Match percentage of `src/app.py` lines 140-143, over the deduplicated
token lists (`len(set(...))`), with the `if total_job_keywords else 0`
guard. -/
def match_percentage (matched_keywords job_words : List String) : ℚ :=
  let total_job_keywords := job_words.dedup.length
  let matched_keyword_count := matched_keywords.dedup.length
  if total_job_keywords ≠ 0 then
    ((matched_keyword_count : ℚ) / (total_job_keywords : ℚ)) * 100
  else 0

/-- Both values `generate_career_recommendations` of `src/app.py` computes
from its two text arguments: the matched-keyword list it returns at line
148 and the match percentage it prints at line 146. -/
def matcherOutputs (my_resume_text job_description_text : String) :
    List String × ℚ :=
  let resume_words := filter_stopwords (tokenize my_resume_text) STOP_WORDS
  let job_words := filter_stopwords (tokenize job_description_text) STOP_WORDS
  let matched_keywords := matchTokens resume_words job_words
  (matched_keywords, match_percentage matched_keywords job_words)

/-- The value `generate_career_recommendations` returns to its caller
(`src/app.py` line 148): the matched-keyword list only. -/
def generate_career_recommendations
    (my_resume_text job_description_text : String) : List String :=
  (matcherOutputs my_resume_text job_description_text).1

/-- The match percentage the matcher prints (`src/app.py` line 146). -/
def matchPercentageOf (my_resume_text job_description_text : String) : ℚ :=
  (matcherOutputs my_resume_text job_description_text).2

/-- One run of the matcher with its side effect made explicit: `stdout` is
the list of percentages printed so far, and the run appends the one print
of `src/app.py` line 146. -/
def runMatcher (stdout : List ℚ) (my_resume_text job_description_text : String) :
    List String × List ℚ :=
  let out := matcherOutputs my_resume_text job_description_text
  (out.1, stdout ++ [out.2])

/-- Word splitting of `src/resume_analyzer_2.py` lines 15-16:
`text.replace(',','').replace('.','').lower().split()`. -/
def ra2_words (text : String) : List String :=
  (runsOf (fun c => !c.isWhitespace)
    (((text.data.filter (fun c => c != ',')).filter (fun c => c != '.')).map
      Char.toLower) []).map String.mk

/-- Core of `generate_career_recommendations` in `src/resume_analyzer_2.py`
(lines 14-41), parameterized by the two file contents it reads.  The
division at line 37 has no zero guard, so the run is `none` (an uncaught
`ZeroDivisionError`) whenever the job text yields no words; otherwise it
yields the matched-keyword list and the computed percentage. -/
def ra2_analysis (my_resume_text job_description_text : String) :
    Option (List String × ℚ) :=
  let resume_words := ra2_words my_resume_text
  let job_words := ra2_words job_description_text
  let matched_keywords := matchTokens resume_words job_words
  let total_job_keywords := job_words.dedup.length
  let matched_keyword_count := matched_keywords.dedup.length
  if total_job_keywords = 0 then none
  else some (matched_keywords,
    ((matched_keyword_count : ℚ) / (total_job_keywords : ℚ)) * 100)

/-! Helper lemmas about the matching loop and the tokenizer. -/

/-- The append-style fold of the matching loop, from any starting
accumulator, is the filter of the job-token list. -/
theorem matchFold_eq_append_filter (R : List String) :
    ∀ (J acc : List String),
      J.foldl (fun acc w => if w ∈ R then acc ++ [w] else acc) acc
        = acc ++ J.filter (fun w => decide (w ∈ R)) := by
  intro J
  induction J with
  | nil => intro acc; simp
  | cons w J ih =>
    intro acc
    by_cases h : w ∈ R <;>
      simp [List.foldl_cons, List.filter_cons, h, ih]

/-- The matching loop computes the order- and duplicate-preserving filter
of the job-token list by membership in the resume-token list. -/
theorem matchTokens_eq_filter (R J : List String) :
    matchTokens R J = J.filter (fun w => decide (w ∈ R)) := by
  simpa using matchFold_eq_append_filter R J []

/-- The run scanner agrees with `List.splitOnP` on the complementary
predicate: the runs are the nonempty chunks, the pending accumulator
merging into the first chunk. -/
theorem runsOf_eq_splitOnP (p : Char → Bool) :
    ∀ (l acc : List Char),
      runsOf p l acc
        = match l.splitOnP (fun c => !p c) with
          | [] => []
          | r :: rs => ((acc ++ r) :: rs).filter (fun x => !x.isEmpty) := by
  intro l
  induction l with
  | nil =>
    intro acc
    cases acc <;> simp [runsOf, List.splitOnP_nil]
  | cons c cs ih =>
    intro acc
    obtain ⟨r, rs, h⟩ : ∃ r rs, cs.splitOnP (fun c => !p c) = r :: rs := by
      cases hs : cs.splitOnP (fun c => !p c) with
      | nil => exact absurd hs (List.splitOnP_ne_nil _ cs)
      | cons r rs => exact ⟨r, rs, rfl⟩
    by_cases hc : p c
    · have hq : (fun c => !p c) c = false := by simp [hc]
      simp only [runsOf, hc, if_pos, List.splitOnP_cons, hq, Bool.false_eq_true,
        if_false, h, List.modifyHead, ih (acc ++ [c])]
      simp
    · have hq : (fun c => !p c) c = true := by simp [hc]
      simp only [runsOf, hc, Bool.false_eq_true, if_false, List.splitOnP_cons,
        hq, if_true, h, ih []]
      cases hacc : acc.isEmpty
      · have : acc ≠ [] := by
          cases acc
          · simp at hacc
          · simp
        simp_all [List.filter_cons]
      · have : acc = [] := by
          cases acc
          · rfl
          · simp at hacc
        simp_all [List.filter_cons]

/-- The scanner started on an empty accumulator returns exactly the
nonempty chunks of `List.splitOnP` on the complementary predicate. -/
theorem runsOf_nil_eq (p : Char → Bool) (l : List Char) :
    runsOf p l []
      = (l.splitOnP (fun c => !p c)).filter (fun x => !x.isEmpty) := by
  rw [runsOf_eq_splitOnP]
  obtain ⟨r, rs, h⟩ : ∃ r rs, l.splitOnP (fun c => !p c) = r :: rs := by
    cases hs : l.splitOnP (fun c => !p c) with
    | nil => exact absurd hs (List.splitOnP_ne_nil _ l)
    | cons r rs => exact ⟨r, rs, rfl⟩
  simp [h]

/-- Evaluation form of the match percentage from the two deduplicated
lengths. -/
theorem match_percentage_eval (M J : List String) (m t : ℕ)
    (hm : M.dedup.length = m) (ht : J.dedup.length = t) :
    match_percentage M J = if t ≠ 0 then (m : ℚ) / (t : ℚ) * 100 else 0 := by
  simp only [match_percentage, hm, ht]

/-- The printed percentage is the match percentage of the returned keyword
list against the filtered job-token list. -/
theorem matchPercentageOf_eq (a b : String) :
    matchPercentageOf a b
      = match_percentage (generate_career_recommendations a b)
          (filter_stopwords (tokenize b) STOP_WORDS) := rfl

/-- The matcher's returned list is the filter of the filtered job tokens by
membership among the filtered resume tokens. -/
theorem gcr_eq_filter (a b : String) :
    generate_career_recommendations a b
      = (filter_stopwords (tokenize b) STOP_WORDS).filter
          (fun w => decide (w ∈ filter_stopwords (tokenize a) STOP_WORDS)) := by
  show matchTokens _ _ = _
  exact matchTokens_eq_filter _ _

/-- A list with no character satisfying `p` yields no runs. -/
theorem runsOf_nil_of_none (p : Char → Bool) :
    ∀ l : List Char, (∀ c ∈ l, p c = false) → runsOf p l [] = [] := by
  intro l
  induction l with
  | nil => intro _; rfl
  | cons c cs ih =>
    intro h
    have hc : p c = false := h c (by simp)
    simp only [runsOf, hc, Bool.false_eq_true, if_false, List.isEmpty_nil,
      if_true]
    exact ih fun d hd => h d (by simp [hd])

/-- Lowercasing a whitespace character never produces a word character. -/
theorem isWordChar_toLower_of_whitespace (c : Char)
    (h : c.isWhitespace = true) : isWordChar c.toLower = false := by
  simp only [Char.isWhitespace, Bool.or_eq_true, decide_eq_true_eq] at h
  rcases h with ((h | h) | h) | h <;> subst h <;> decide

/-! Claims. -/

/-- C1: for every pair of input texts, when the set of unique
job-description tokens (after stop-word filtering) is empty, the computed
match percentage of the app.py matcher is 0.  (The guard of app.py line
143 makes the zero case explicit; the division never runs on it.) -/
theorem app_match_percentage_zero_on_empty_jobset (r j : String)
    (h : (filter_stopwords (tokenize j) STOP_WORDS).dedup = []) :
    matchPercentageOf r j = 0 := by
  simp [matchPercentageOf, matcherOutputs, match_percentage, h]

/-- C1 witness: a job text made of stop words only has an empty unique
token set, and the matcher reports a zero percentage on it. -/
theorem app_match_percentage_zero_on_empty_jobset_witness :
    matchPercentageOf "python" "the and of" = 0 :=
  app_match_percentage_zero_on_empty_jobset "python" "the and of" (by decide)

/-- C1 counterexample: in the resume_analyzer_2.py variant (cited by the
claim) the division of line 37 is unguarded, so an empty job text makes
the run fail with ZeroDivisionError instead of yielding 0. -/
theorem ra2_division_by_zero_on_empty_job :
    ra2_analysis "python" "" = none := by decide

/-- C2 counterexample: the value `generate_career_recommendations` returns
is the matched-keyword list alone, and no function of that returned value
recovers the match percentage: two input pairs share the returned list
`["python"]` yet have percentages 100 and 50.  So the matcher does not
return the percentage to its caller (it only prints it). -/
theorem matcher_return_carries_no_percentage :
    ¬ ∃ f : List String → ℚ, ∀ r j : String,
        f (generate_career_recommendations r j) = matchPercentageOf r j := by
  rintro ⟨f, hf⟩
  have h1 := hf "python" "python"
  have h2 := hf "python" "python java"
  have e1 : generate_career_recommendations "python" "python" = ["python"] := by
    decide
  have e2 : generate_career_recommendations "python" "python java"
      = ["python"] := by decide
  have p1 : matchPercentageOf "python" "python" = 100 := by
    rw [matchPercentageOf_eq, e1,
      show filter_stopwords (tokenize "python") STOP_WORDS = ["python"] by decide,
      match_percentage_eval _ _ 1 1 (by decide) (by decide)]
    norm_num
  have p2 : matchPercentageOf "python" "python java" = 50 := by
    rw [matchPercentageOf_eq, e2,
      show filter_stopwords (tokenize "python java") STOP_WORDS
          = ["python", "java"] by decide,
      match_percentage_eval _ _ 1 2 (by decide) (by decide)]
    norm_num
  rw [e1, p1] at h1
  rw [e2, p2] at h2
  have h100 : (100 : ℚ) = 50 := h1.symm.trans h2
  norm_num at h100

/-- C2 amended: the matcher returns the matched-keyword sequence only; the
floating-point match percentage is computed and printed but is not part of
the returned value. -/
theorem matcher_returns_matched_keywords_only (r j : String) :
    generate_career_recommendations r j = (matcherOutputs r j).1 ∧
    generate_career_recommendations r j
      = (filter_stopwords (tokenize j) STOP_WORDS).filter
          (fun w => decide (w ∈ filter_stopwords (tokenize r) STOP_WORDS)) ∧
    (matcherOutputs r j).2
      = match_percentage (generate_career_recommendations r j)
          (filter_stopwords (tokenize j) STOP_WORDS) :=
  ⟨rfl, gcr_eq_filter r j, rfl⟩

/-- C3 amended: every operation of the app.py matcher is a total function
of its string inputs, and empty input degrades to empty results: an empty
resume or job text yields an empty matched list and a zero percentage. -/
theorem app_matcher_total_on_empty_inputs (r : String) :
    tokenize "" = [] ∧
    generate_career_recommendations "" r = [] ∧
    generate_career_recommendations r "" = [] ∧
    matchPercentageOf r "" = 0 ∧
    matchPercentageOf "" r = 0 := by
  have hres : filter_stopwords (tokenize "") STOP_WORDS = [] := rfl
  have hg1 : generate_career_recommendations "" r = [] := by
    rw [gcr_eq_filter]
    simp [hres]
  have hg2 : generate_career_recommendations r "" = [] := by
    rw [gcr_eq_filter, hres]
    simp
  refine ⟨rfl, hg1, hg2, ?_, ?_⟩
  · rw [matchPercentageOf_eq, hres, match_percentage_eval _ [] _ 0 rfl rfl]
    simp
  · rw [matchPercentageOf_eq, hg1, match_percentage_eval [] _ 0 _ rfl rfl]
    split <;> simp

/-- C3 counterexample: the claim also covers resume_analyzer_2.py, whose
pipeline is not total: on a job text holding only separators (no words)
the percentage step divides by zero and the run fails. -/
theorem ra2_percentage_step_raises :
    ra2_analysis "data science" " , . " = none := by decide

/-- C4 counterexample: over arbitrary argument lists the stated contract
fails: `match_percentage(["a","b"], ["a"])` is 200, outside [0,100]. -/
theorem match_percentage_out_of_range :
    match_percentage ["a", "b"] ["a"] = 200 ∧
    ¬ match_percentage ["a", "b"] ["a"] ≤ 100 := by
  have h : match_percentage ["a", "b"] ["a"] = 200 := by
    rw [match_percentage_eval ["a", "b"] ["a"] 2 1 (by decide) (by decide)]
    norm_num
  exact ⟨h, by rw [h]; norm_num⟩

/-- C4 amended: whenever every element of the matched list also occurs in
the job list (as holds for every output of the matching loop), the match
percentage equals 100 times the ratio of the unique counts and lies in
[0, 100]. -/
theorem match_percentage_formula_and_range (M J : List String)
    (hsub : ∀ w ∈ M, w ∈ J) :
    match_percentage M J
        = 100 * (M.dedup.length : ℚ) / (J.dedup.length : ℚ) ∧
    0 ≤ match_percentage M J ∧ match_percentage M J ≤ 100 := by
  have hle : M.dedup.length ≤ J.dedup.length := by
    have h1 : M.toFinset ⊆ J.toFinset := by
      intro w hw
      rw [List.mem_toFinset] at hw ⊢
      exact hsub w hw
    have h2 := Finset.card_le_card h1
    rwa [List.card_toFinset, List.card_toFinset] at h2
  refine ⟨?_, ?_, ?_⟩
  · by_cases ht : J.dedup.length = 0
    · simp [match_percentage, ht]
    · simp only [match_percentage, if_pos (by simpa using ht : J.dedup.length ≠ 0)]
      ring
  · by_cases ht : J.dedup.length = 0
    · simp [match_percentage, ht]
    · simp only [match_percentage, if_pos (by simpa using ht : J.dedup.length ≠ 0)]
      positivity
  · by_cases ht : J.dedup.length = 0
    · simp [match_percentage, ht]
    · simp only [match_percentage, if_pos (by simpa using ht : J.dedup.length ≠ 0)]
      have htpos : (0 : ℚ) < (J.dedup.length : ℚ) := by
        exact_mod_cast Nat.pos_of_ne_zero ht
      have hmt : (M.dedup.length : ℚ) ≤ (J.dedup.length : ℚ) := by
        exact_mod_cast hle
      calc (M.dedup.length : ℚ) / (J.dedup.length : ℚ) * 100
          ≤ 1 * 100 := by
            exact mul_le_mul_of_nonneg_right ((div_le_one htpos).mpr hmt)
              (by norm_num)
        _ = 100 := one_mul 100

/-- C4 witness: the specification's own example, with the hypothesis
discharged: the matched list `["python"]` sits inside the job list, the
percentage is exactly 50 and lies in [0, 100]. -/
theorem match_percentage_formula_and_range_witness :
    match_percentage ["python"] ["python", "python", "java"] = 50 ∧
    0 ≤ match_percentage ["python"] ["python", "python", "java"] ∧
    match_percentage ["python"] ["python", "python", "java"] ≤ 100 := by
  obtain ⟨h1, h2, h3⟩ :=
    match_percentage_formula_and_range ["python"] ["python", "python", "java"]
      (by decide)
  refine ⟨?_, h2, h3⟩
  rw [h1,
    show (["python"] : List String).dedup.length = 1 by decide,
    show (["python", "python", "java"] : List String).dedup.length = 2 by decide]
  norm_num

/-- C5: the matching loop yields exactly the tokens of the job list, in
their order of occurrence and with duplicates preserved (it is the filter
of the job list), the membership test being equivalent to set membership
in the resume-token list. -/
theorem matchTokens_spec (R J : List String) :
    matchTokens R J = J.filter (fun w => decide (w ∈ R)) ∧
    (matchTokens R J).Sublist J ∧
    (∀ w, w ∈ matchTokens R J ↔ w ∈ J ∧ w ∈ R) ∧
    (∀ w, w ∈ matchTokens R J ↔ w ∈ J ∧ w ∈ R.toFinset) := by
  have h := matchTokens_eq_filter R J
  refine ⟨h, ?_, ?_, ?_⟩
  · rw [h]
    exact List.filter_sublist J
  · intro w
    rw [h, List.mem_filter]
    simp
  · intro w
    rw [h, List.mem_filter]
    simp [List.mem_toFinset]

/-- C6: the tokenizer lowercases its input and returns the maximal runs of
word characters in order of appearance (the nonempty chunks that
`List.splitOnP` cuts at non-word characters); empty or whitespace-only
input yields the empty sequence, and the spec example holds. -/
theorem tokenize_spec :
    (∀ text : String,
        tokenize text
          = (((text.data.map Char.toLower).splitOnP
                (fun c => !isWordChar c)).filter
              (fun r => !r.isEmpty)).map String.mk) ∧
    tokenize "" = [] ∧
    tokenize "Data, Science!" = ["data", "science"] ∧
    (∀ text : String, (∀ c ∈ text.data, c.isWhitespace = true) →
        tokenize text = []) := by
  refine ⟨?_, rfl, by decide, ?_⟩
  · intro text
    unfold tokenize
    rw [runsOf_nil_eq]
  · intro text h
    unfold tokenize
    rw [runsOf_nil_of_none]
    · rfl
    · intro c hc
      rw [List.mem_map] at hc
      obtain ⟨d, hd, rfl⟩ := hc
      exact isWordChar_toLower_of_whitespace d (h d hd)

/-- C6 witness: a whitespace-only text tokenizes to the empty sequence,
with the all-whitespace hypothesis discharged on a concrete string. -/
theorem tokenize_spec_witness : tokenize " \t\n" = [] :=
  tokenize_spec.2.2.2 " \t\n" (by decide)

/-- C7: stop-word filtering returns the subsequence of tokens not in the
stop-word set, preserving relative order and duplicates, and the filtered
tokenization of any text holds no member of the stop-word set. -/
theorem filter_stopwords_spec (ts stop : List String) (T : String) :
    (filter_stopwords ts stop).Sublist ts ∧
    (∀ w, w ∈ filter_stopwords ts stop ↔ w ∈ ts ∧ w ∉ stop) ∧
    (filter_stopwords (tokenize T) stop).all
      (fun w => decide (w ∉ stop)) = true := by
  refine ⟨List.filter_sublist ts, ?_, ?_⟩
  · intro w
    rw [filter_stopwords, List.mem_filter]
    simp
  · rw [List.all_eq_true]
    intro w hw
    rw [filter_stopwords] at hw
    exact (List.mem_filter.mp hw).2

/-- C8: stop-word filtering is idempotent. -/
theorem filter_stopwords_idem (ts stop : List String) :
    filter_stopwords (filter_stopwords ts stop) stop
      = filter_stopwords ts stop := by
  simp [filter_stopwords, List.filter_filter]

/-- C9 counterexample: the matcher does perform I/O: a run on a concrete
pair of texts changes the output state, printing the match percentage
(app.py line 146), so "no stateful side effects and no I/O" fails as
stated. -/
theorem matcher_run_prints :
    (runMatcher [] "python" "python java").2 = [50] ∧
    (runMatcher [] "python" "python java").2 ≠ [] := by
  have p2 : matchPercentageOf "python" "python java" = 50 := by
    rw [matchPercentageOf_eq,
      show generate_career_recommendations "python" "python java"
          = ["python"] by decide,
      show filter_stopwords (tokenize "python java") STOP_WORDS
          = ["python", "java"] by decide,
      match_percentage_eval _ _ 1 2 (by decide) (by decide)]
    norm_num
  have h : (runMatcher [] "python" "python java").2
      = [matchPercentageOf "python" "python java"] := rfl
  rw [h, p2]
  exact ⟨rfl, by simp⟩

/-- C9 amended: the matcher is fully deterministic and pure up to its one
print: its returned list does not depend on the ambient output state,
equals the pure function of the two texts, the only effect of a run is
appending the one printed percentage, and a rerun after the first run
returns the same list. -/
theorem matcher_deterministic_stateless (s₁ s₂ : List ℚ) (r j : String) :
    (runMatcher s₁ r j).1 = (runMatcher s₂ r j).1 ∧
    (runMatcher s₁ r j).1 = generate_career_recommendations r j ∧
    (runMatcher s₁ r j).2 = s₁ ++ [matchPercentageOf r j] ∧
    (runMatcher (runMatcher s₁ r j).2 r j).1 = (runMatcher s₁ r j).1 :=
  ⟨rfl, rfl, rfl, rfl⟩

/-- C10: every keyword the matcher returns is a token of the lowercased
resume text, a token of the lowercased job-description text, and not a
stop word. -/
theorem matched_keywords_invariant (r j w : String)
    (h : w ∈ generate_career_recommendations r j) :
    w ∈ tokenize r ∧ w ∈ tokenize j ∧ w ∉ STOP_WORDS := by
  rw [gcr_eq_filter, List.mem_filter] at h
  obtain ⟨hj, hr⟩ := h
  simp only [filter_stopwords, List.mem_filter, decide_eq_true_eq] at hj hr
  exact ⟨hr.1, hj.1, hj.2⟩

/-- C10 witness: on a concrete resume and job text the returned keyword
list holds "python", which is a token of both texts and not a stop word. -/
theorem matched_keywords_invariant_witness :
    "python" ∈ tokenize "python sql" ∧
    "python" ∈ tokenize "Python, Java!" ∧
    "python" ∉ STOP_WORDS :=
  matched_keywords_invariant "python sql" "Python, Java!" "python" (by decide)
